import Mathlib

/-!
Verification of the WebSocket connection-registry subsystem of the calenote
repository (`src/websocket_manager.py`, class `ConnectionManager`, plus the
registration fragment of `src/app/api/websocket.py::websocket_endpoint`).

Modelling conventions:
* `UUID` values (user ids, calendar ids) and WebSocket channel objects are
  modelled as `Nat`.
* Python dictionaries are modelled as association lists (`List (Nat × α)`)
  with insertion-order semantics: assigning to an existing key updates the
  entry in place, assigning to a fresh key appends it at the end, `del`
  removes the entry.  Python sets are modelled as duplicate-free lists:
  `add` appends when absent, `discard` filters.
* `websocket.send_json(message)` either succeeds or raises; this is modelled
  by a failure oracle `fails : Nat → Bool` on channel values.  Each send
  attempt is recorded as a `SendEvent`; a delivery is an event with
  `ok = true`.
* The `try/except` around each send is modelled twice: the main definitions
  bake the handler in (they are total and return the mutated registry plus
  the event trace), and the `E`-suffixed definitions run in `Except String`
  with the send modelled as a throwing operation and the handler as an
  explicit `match`, so that "no exception escapes" is a theorem rather than
  a modelling artifact.
-/

/-- Python `d[k]` / `k in d` on a dict modelled as an association list:
first entry with the given key. -/
def dictLookup {α : Type} (d : List (Nat × α)) (k : Nat) : Option α :=
  match d with
  | [] => none
  | (k', v) :: rest => if k' = k then some v else dictLookup rest k

/-- Python `d[k] = v`: update in place when the key is present, append
at the end when it is fresh. -/
def dictInsert {α : Type} (d : List (Nat × α)) (k : Nat) (v : α) : List (Nat × α) :=
  match d with
  | [] => [(k, v)]
  | (k', v') :: rest => if k' = k then (k, v) :: rest else (k', v') :: dictInsert rest k v

/-- Python `del d[k]`: remove the entry with the given key. -/
def dictErase {α : Type} (d : List (Nat × α)) (k : Nat) : List (Nat × α) :=
  match d with
  | [] => []
  | (k', v') :: rest => if k' = k then rest else (k', v') :: dictErase rest k

/-- Python `s.add(u)` on a set modelled as a duplicate-free list. -/
def setAdd (s : List Nat) (u : Nat) : List Nat :=
  if u ∈ s then s else s ++ [u]

/-- The two maps owned by `ConnectionManager.__init__`:
`active_connections : {user_id: {calendar_id: WebSocket}}` and
`calendar_subscribers : {calendar_id: Set[user_id]}`. -/
structure Registry where
  active_connections : List (Nat × List (Nat × Nat))
  calendar_subscribers : List (Nat × List Nat)
  deriving DecidableEq, Repr

/-- The empty registry created by `ConnectionManager.__init__`. -/
def Registry.empty : Registry := ⟨[], []⟩

/-- Composite lookup `self.active_connections[user_id][calendar_id]`,
guarded by the two `in` checks the source performs before each access. -/
def lookup2 (r : Registry) (u_id cal_id : Nat) : Option Nat :=
  match dictLookup r.active_connections u_id with
  | none => none
  | some inner => dictLookup inner cal_id

/-- The subscriber set of a calendar, empty when the calendar is absent. -/
def subsOf (r : Registry) (cal_id : Nat) : List Nat :=
  (dictLookup r.calendar_subscribers cal_id).getD []

/-- Membership `u in self.calendar_subscribers[cal]` (false when absent). -/
def memSubs (r : Registry) (cal_id u_id : Nat) : Prop :=
  u_id ∈ subsOf r cal_id

instance (r : Registry) (cal_id u_id : Nat) : Decidable (memSubs r cal_id u_id) := by
  unfold memSubs; infer_instance

/-- One attempted `websocket.send_json` call: the channel it was made on,
the (user, calendar) pair the channel was registered under, the message,
and whether the send succeeded (`ok = true`) or raised. -/
structure SendEvent where
  channel : Nat
  user : Nat
  calendar : Nat
  message : Nat
  ok : Bool
  deriving DecidableEq, Repr

/-- `ConnectionManager.connect` (websocket_manager.py lines 22-41): insert
the channel under `(user_id, calendar_id)`, creating the inner dict when the
user is new, and add the user to the calendar's subscriber set, creating the
set when the calendar is new.  The `await websocket.accept()` side effect is
modelled separately by `connectA`. -/
def connect (r : Registry) (websocket u_id cal_id : Nat) : Registry :=
  let ac0 := if (dictLookup r.active_connections u_id).isNone
             then dictInsert r.active_connections u_id []
             else r.active_connections
  let inner := (dictLookup ac0 u_id).getD []
  let ac1 := dictInsert ac0 u_id (dictInsert inner cal_id websocket)
  let cs0 := if (dictLookup r.calendar_subscribers cal_id).isNone
             then dictInsert r.calendar_subscribers cal_id []
             else r.calendar_subscribers
  let subs := (dictLookup cs0 cal_id).getD []
  let cs1 := dictInsert cs0 cal_id (setAdd subs u_id)
  ⟨ac1, cs1⟩

/-- `ConnectionManager.disconnect` (lines 43-62): delete the inner entry when
present, drop the user when their inner dict becomes empty, discard the user
from the calendar's subscriber set, and drop the calendar when the set
becomes empty. -/
def disconnect (r : Registry) (u_id cal_id : Nat) : Registry :=
  let ac :=
    match dictLookup r.active_connections u_id with
    | none => r.active_connections
    | some inner =>
      let inner' := dictErase inner cal_id
      if inner' = [] then dictErase r.active_connections u_id
      else dictInsert r.active_connections u_id inner'
  let cs :=
    match dictLookup r.calendar_subscribers cal_id with
    | none => r.calendar_subscribers
    | some s =>
      let s' := s.filter (fun x => x ≠ u_id)
      if s' = [] then dictErase r.calendar_subscribers cal_id
      else dictInsert r.calendar_subscribers cal_id s'
  ⟨ac, cs⟩

/-- `ConnectionManager.send_personal_message` (lines 64-78): look the channel
up under the two `in` guards, attempt the send, and on failure run the same
cleanup as `disconnect` on exactly that pair. -/
def send_personal_message (r : Registry) (fails : Nat → Bool)
    (message u_id cal_id : Nat) : Registry × List SendEvent :=
  match lookup2 r u_id cal_id with
  | none => (r, [])
  | some websocket =>
    if fails websocket
    then (disconnect r u_id cal_id, [⟨websocket, u_id, cal_id, message, false⟩])
    else (r, [⟨websocket, u_id, cal_id, message, true⟩])

/-- Loop body of `broadcast_to_calendar` (lines 106-114): re-check the two
`in` guards against the registry, attempt the send, and on failure append
`(user_id, calendar_id)` to the `disconnected_users` accumulator. -/
def bcStep (r : Registry) (fails : Nat → Bool) (cal_id message : Nat)
    (acc : List SendEvent × List (Nat × Nat)) (u_id : Nat) :
    List SendEvent × List (Nat × Nat) :=
  match lookup2 r u_id cal_id with
  | none => acc
  | some websocket =>
    if fails websocket
    then (acc.1 ++ [⟨websocket, u_id, cal_id, message, false⟩], acc.2 ++ [(u_id, cal_id)])
    else (acc.1 ++ [⟨websocket, u_id, cal_id, message, true⟩], acc.2)

/-- `ConnectionManager.broadcast_to_calendar` (lines 80-118): return
immediately when the calendar has no entry; copy the subscriber set and
discard `exclude_user` when given (a `UUID` is always truthy in Python, so
`if exclude_user:` is a None test); fan out over the snapshot collecting
failures; then disconnect every failed pair after the pass.  Iteration order
over the Python set is modelled by the list order of the snapshot. -/
def broadcast_to_calendar (r : Registry) (fails : Nat → Bool)
    (cal_id message : Nat) (exclude_user : Option Nat) :
    Registry × List SendEvent :=
  match dictLookup r.calendar_subscribers cal_id with
  | none => (r, [])
  | some subs0 =>
    let subscribers :=
      match exclude_user with
      | none => subs0
      | some eu => subs0.filter (fun x => x ≠ eu)
    let res := subscribers.foldl (bcStep r fails cal_id message) ([], [])
    let r' := res.2.foldl (fun s p => disconnect s p.1 p.2) r
    (r', res.1)

/-- Loop body of `broadcast_to_user` (lines 129-135): iterate over
`self.active_connections[user_id].items()`, attempt each send, and on
failure append the calendar id to `disconnected_calendars`. -/
def buStep (fails : Nat → Bool) (u_id message : Nat)
    (acc : List SendEvent × List Nat) (p : Nat × Nat) :
    List SendEvent × List Nat :=
  if fails p.2
  then (acc.1 ++ [⟨p.2, u_id, p.1, message, false⟩], acc.2 ++ [p.1])
  else (acc.1 ++ [⟨p.2, u_id, p.1, message, true⟩], acc.2)

/-- `ConnectionManager.broadcast_to_user` (lines 120-139): return immediately
when the user has no entry; fan out over the user's calendar-to-channel map
collecting failed calendars; then disconnect each failed calendar after the
pass. -/
def broadcast_to_user (r : Registry) (fails : Nat → Bool)
    (u_id message : Nat) : Registry × List SendEvent :=
  match dictLookup r.active_connections u_id with
  | none => (r, [])
  | some inner =>
    let res := inner.foldl (buStep fails u_id message) ([], [])
    let r' := res.2.foldl (fun s c => disconnect s u_id c) r
    (r', res.1)

/-- `ConnectionManager.get_calendar_subscriber_count` (lines 141-145). -/
def get_calendar_subscriber_count (r : Registry) (cal_id : Nat) : Nat :=
  match dictLookup r.calendar_subscribers cal_id with
  | none => 0
  | some s => s.length

/-- `ConnectionManager.get_user_connections` (lines 147-151). -/
def get_user_connections (r : Registry) (u_id : Nat) : Nat :=
  match dictLookup r.active_connections u_id with
  | none => 0
  | some inner => inner.length

/-- Raising model of `websocket.send_json(message)`: throws exactly when the
failure oracle marks the channel as failed. -/
def send_json (fails : Nat → Bool) (websocket message : Nat) : Except String Unit :=
  if fails websocket then Except.error "send failed" else Except.ok ()

/-- Loop body of `broadcast_to_calendar` with the `try/except Exception`
written out: the `match` on `send_json` is the handler, and no branch
re-raises. -/
def bcStepE (r : Registry) (fails : Nat → Bool) (cal_id message : Nat)
    (acc : List SendEvent × List (Nat × Nat)) (u_id : Nat) :
    Except String (List SendEvent × List (Nat × Nat)) :=
  match lookup2 r u_id cal_id with
  | none => Except.ok acc
  | some websocket =>
    match send_json fails websocket message with
    | Except.error _ =>
        Except.ok (acc.1 ++ [⟨websocket, u_id, cal_id, message, false⟩],
                   acc.2 ++ [(u_id, cal_id)])
    | Except.ok _ =>
        Except.ok (acc.1 ++ [⟨websocket, u_id, cal_id, message, true⟩], acc.2)

/-- `broadcast_to_calendar` in the exception semantics. -/
def broadcast_to_calendarE (r : Registry) (fails : Nat → Bool)
    (cal_id message : Nat) (exclude_user : Option Nat) :
    Except String (Registry × List SendEvent) :=
  match dictLookup r.calendar_subscribers cal_id with
  | none => Except.ok (r, [])
  | some subs0 => do
    let subscribers :=
      match exclude_user with
      | none => subs0
      | some eu => subs0.filter (fun x => x ≠ eu)
    let res ← subscribers.foldlM (bcStepE r fails cal_id message) ([], [])
    let r' := res.2.foldl (fun s p => disconnect s p.1 p.2) r
    pure (r', res.1)

/-- Loop body of `broadcast_to_user` with the `try/except` written out. -/
def buStepE (fails : Nat → Bool) (u_id message : Nat)
    (acc : List SendEvent × List Nat) (p : Nat × Nat) :
    Except String (List SendEvent × List Nat) :=
  match send_json fails p.2 message with
  | Except.error _ =>
      Except.ok (acc.1 ++ [⟨p.2, u_id, p.1, message, false⟩], acc.2 ++ [p.1])
  | Except.ok _ =>
      Except.ok (acc.1 ++ [⟨p.2, u_id, p.1, message, true⟩], acc.2)

/-- `broadcast_to_user` in the exception semantics. -/
def broadcast_to_userE (r : Registry) (fails : Nat → Bool)
    (u_id message : Nat) : Except String (Registry × List SendEvent) :=
  match dictLookup r.active_connections u_id with
  | none => Except.ok (r, [])
  | some inner => do
    let res ← inner.foldlM (buStepE fails u_id message) ([], [])
    let r' := res.2.foldl (fun s c => disconnect s u_id c) r
    pure (r', res.1)

/-- `send_personal_message` in the exception semantics. -/
def send_personal_messageE (r : Registry) (fails : Nat → Bool)
    (message u_id cal_id : Nat) : Except String (Registry × List SendEvent) :=
  match lookup2 r u_id cal_id with
  | none => Except.ok (r, [])
  | some websocket =>
    match send_json fails websocket message with
    | Except.error _ =>
        Except.ok (disconnect r u_id cal_id, [⟨websocket, u_id, cal_id, message, false⟩])
    | Except.ok _ => Except.ok (r, [⟨websocket, u_id, cal_id, message, true⟩])

/-- Observable channel actions performed by the registration path. -/
inductive ChanAction where
  | accept : Nat → ChanAction
  | send : Nat → Nat → ChanAction
  deriving DecidableEq, Repr

/-- `ConnectionManager.connect` together with its channel-action trace:
the body performs `await websocket.accept()` and the two map updates, and
nothing else — in particular no `send_json` call. -/
def connectA (r : Registry) (websocket u_id cal_id : Nat) :
    Registry × List ChanAction :=
  (connect r websocket u_id cal_id, [ChanAction.accept websocket])

/-- Registration fragment of `websocket_endpoint`
(src/app/api/websocket.py lines 71-82): after authentication and
authorization succeed, the endpoint calls `manager.connect` and then itself
sends the `connection:established` acknowledgment on the channel.  The
acknowledgment payload is abstracted as `ack_message`. -/
def endpoint_register (r : Registry) (websocket u_id cal_id ack_message : Nat) :
    Registry × List ChanAction :=
  let res := connectA r websocket u_id cal_id
  (res.1, res.2 ++ [ChanAction.send websocket ack_message])

/-- Well-formedness of a registry state: all dict key lists and all
subscriber sets are duplicate-free, no inner dict and no subscriber set is
empty (invariant I1), and the two maps agree (invariant I2): every
subscriber has a live channel (`fwd`) and every live channel's user is a
subscriber (`bwd`). -/
structure WF (r : Registry) : Prop where
  ac_keys : (r.active_connections.map Prod.fst).Nodup
  cs_keys : (r.calendar_subscribers.map Prod.fst).Nodup
  inner_keys : ∀ p ∈ r.active_connections, (p.2.map Prod.fst).Nodup
  subs_nodup : ∀ p ∈ r.calendar_subscribers, p.2.Nodup
  inner_ne : ∀ p ∈ r.active_connections, p.2 ≠ []
  subs_ne : ∀ p ∈ r.calendar_subscribers, p.2 ≠ []
  fwd : ∀ p ∈ r.calendar_subscribers, ∀ u ∈ p.2, (lookup2 r u p.1).isSome = true
  bwd : ∀ p ∈ r.active_connections, ∀ q ∈ p.2, p.1 ∈ subsOf r q.1

/-- Registry states reachable from the empty registry by the mutating
operations of `ConnectionManager` (invariant I3: these are the only paths
that mutate the two maps). -/
inductive Reachable : Registry → Prop where
  | empty : Reachable Registry.empty
  | conn (r : Registry) (ws u cal : Nat) :
      Reachable r → Reachable (connect r ws u cal)
  | disc (r : Registry) (u cal : Nat) :
      Reachable r → Reachable (disconnect r u cal)
  | bcal (r : Registry) (fails : Nat → Bool) (cal msg : Nat) (ex : Option Nat) :
      Reachable r → Reachable (broadcast_to_calendar r fails cal msg ex).1
  | buser (r : Registry) (fails : Nat → Bool) (u msg : Nat) :
      Reachable r → Reachable (broadcast_to_user r fails u msg).1
  | pers (r : Registry) (fails : Nat → Bool) (msg u cal : Nat) :
      Reachable r → Reachable (send_personal_message r fails msg u cal).1

section DictLemmas

variable {α : Type}

theorem dictLookup_insert_self (d : List (Nat × α)) (k : Nat) (v : α) :
    dictLookup (dictInsert d k v) k = some v := by
  induction d with
  | nil => simp [dictInsert, dictLookup]
  | cons hd tl ih =>
    obtain ⟨k', v'⟩ := hd
    by_cases h : k' = k
    · subst h; simp [dictInsert, dictLookup]
    · simp [dictInsert, dictLookup, h, ih]

theorem dictLookup_insert_ne (d : List (Nat × α)) (k k0 : Nat) (v : α)
    (h : k0 ≠ k) : dictLookup (dictInsert d k v) k0 = dictLookup d k0 := by
  induction d with
  | nil => simp [dictInsert, dictLookup, Ne.symm h]
  | cons hd tl ih =>
    obtain ⟨k', v'⟩ := hd
    by_cases hk : k' = k
    · simp [dictInsert, dictLookup, hk, Ne.symm h]
    · by_cases hk0 : k' = k0
      · subst hk0
        simp [dictInsert, dictLookup, hk]
      · simp [dictInsert, dictLookup, hk, hk0, ih]

theorem dictLookup_erase_ne (d : List (Nat × α)) (k k0 : Nat)
    (h : k0 ≠ k) : dictLookup (dictErase d k) k0 = dictLookup d k0 := by
  induction d with
  | nil => simp [dictErase]
  | cons hd tl ih =>
    obtain ⟨k', v'⟩ := hd
    by_cases hk : k' = k
    · simp [dictErase, dictLookup, hk, Ne.symm h]
    · by_cases hk0 : k' = k0
      · subst hk0
        simp [dictErase, dictLookup, hk]
      · simp [dictErase, dictLookup, hk, hk0, ih]

theorem mem_of_dictLookup {d : List (Nat × α)} {k : Nat} {v : α}
    (h : dictLookup d k = some v) : (k, v) ∈ d := by
  induction d with
  | nil => simp [dictLookup] at h
  | cons hd tl ih =>
    obtain ⟨k', v'⟩ := hd
    by_cases hk : k' = k
    · subst hk
      simp [dictLookup] at h
      simp [h]
    · simp [dictLookup, hk] at h
      exact List.mem_cons_of_mem _ (ih h)

theorem dictLookup_eq_none {d : List (Nat × α)} {k : Nat} :
    dictLookup d k = none ↔ k ∉ d.map Prod.fst := by
  induction d with
  | nil => simp [dictLookup]
  | cons hd tl ih =>
    obtain ⟨k', v'⟩ := hd
    by_cases hk : k' = k
    · subst hk; simp [dictLookup]
    · simp [dictLookup, hk, ih, Ne.symm hk]

theorem dictLookup_isSome_of_mem_keys {d : List (Nat × α)} {k : Nat}
    (h : k ∈ d.map Prod.fst) : (dictLookup d k).isSome = true := by
  cases hl : dictLookup d k with
  | none => exact absurd (dictLookup_eq_none.mp hl) (fun h1 => h1 h)
  | some v => rfl

theorem map_fst_dictInsert (d : List (Nat × α)) (k : Nat) (v : α) :
    (dictInsert d k v).map Prod.fst =
      if k ∈ d.map Prod.fst then d.map Prod.fst else d.map Prod.fst ++ [k] := by
  induction d with
  | nil => simp [dictInsert]
  | cons hd tl ih =>
    obtain ⟨k', v'⟩ := hd
    by_cases hk : k' = k
    · subst hk; simp [dictInsert]
    · have hne : ¬ k = k' := fun h1 => hk h1.symm
      by_cases hmem : k ∈ tl.map Prod.fst <;>
        simp [dictInsert, hk, ih, hmem, hne]

theorem nodup_keys_dictInsert {d : List (Nat × α)} (k : Nat) (v : α)
    (h : (d.map Prod.fst).Nodup) : ((dictInsert d k v).map Prod.fst).Nodup := by
  rw [map_fst_dictInsert]
  by_cases hmem : k ∈ d.map Prod.fst
  · simpa [hmem] using h
  · rw [if_neg hmem]
    refine List.Nodup.append h (List.nodup_singleton k) ?_
    intro a ha hak
    simp only [List.mem_singleton] at hak
    exact hmem (hak ▸ ha)

theorem dictErase_sublist (d : List (Nat × α)) (k : Nat) :
    (dictErase d k).Sublist d := by
  induction d with
  | nil => simp [dictErase]
  | cons hd tl ih =>
    obtain ⟨k', v'⟩ := hd
    by_cases hk : k' = k
    · subst hk
      simpa [dictErase] using List.sublist_cons_self _ _
    · simpa [dictErase, hk] using List.Sublist.cons₂ (k', v') ih

theorem nodup_keys_dictErase {d : List (Nat × α)} (k : Nat)
    (h : (d.map Prod.fst).Nodup) : ((dictErase d k).map Prod.fst).Nodup :=
  ((dictErase_sublist d k).map Prod.fst).nodup h

theorem mem_of_dictErase {d : List (Nat × α)} {k : Nat} {p : Nat × α}
    (h : p ∈ dictErase d k) : p ∈ d :=
  (dictErase_sublist d k).mem h

theorem dictLookup_erase_self {d : List (Nat × α)} (k : Nat)
    (h : (d.map Prod.fst).Nodup) : dictLookup (dictErase d k) k = none := by
  induction d with
  | nil => simp [dictErase, dictLookup]
  | cons hd tl ih =>
    obtain ⟨k', v'⟩ := hd
    simp only [List.map_cons, List.nodup_cons] at h
    by_cases hk : k' = k
    · subst hk
      simpa [dictErase, dictLookup_eq_none] using h.1
    · simp [dictErase, dictLookup, hk, ih h.2]

theorem mem_dictInsert_iff {d : List (Nat × α)} {k : Nat} {v : α}
    {p : Nat × α} (h : (d.map Prod.fst).Nodup) :
    p ∈ dictInsert d k v ↔ p = (k, v) ∨ (p ∈ d ∧ p.1 ≠ k) := by
  induction d with
  | nil => simp [dictInsert]
  | cons hd tl ih =>
    obtain ⟨k', v'⟩ := hd
    simp only [List.map_cons, List.nodup_cons] at h
    by_cases hk : k' = k
    · have hred : dictInsert ((k', v') :: tl) k v = (k, v) :: tl := by
        simp [dictInsert, hk]
      rw [hred]
      constructor
      · intro hp
        rcases List.mem_cons.mp hp with h1 | h1
        · exact Or.inl h1
        · refine Or.inr ⟨List.mem_cons_of_mem _ h1, ?_⟩
          intro hpk
          apply h.1
          rw [hk, ← hpk]
          exact List.mem_map_of_mem Prod.fst h1
      · intro hp
        rcases hp with h1 | ⟨h1, h2⟩
        · exact h1 ▸ List.mem_cons_self _ _
        · rcases List.mem_cons.mp h1 with h3 | h3
          · exact absurd (by rw [h3, hk]) h2
          · exact List.mem_cons_of_mem _ h3
    · have hred : dictInsert ((k', v') :: tl) k v = (k', v') :: dictInsert tl k v := by
        simp [dictInsert, hk]
      rw [hred]
      constructor
      · intro hp
        rcases List.mem_cons.mp hp with h1 | h1
        · refine Or.inr ⟨h1 ▸ List.mem_cons_self _ _, ?_⟩
          rw [h1]
          exact hk
        · rcases (ih h.2).mp h1 with h2 | ⟨h2, h3⟩
          · exact Or.inl h2
          · exact Or.inr ⟨List.mem_cons_of_mem _ h2, h3⟩
      · intro hp
        rcases hp with h1 | ⟨h1, h2⟩
        · exact List.mem_cons_of_mem _ ((ih h.2).mpr (Or.inl h1))
        · rcases List.mem_cons.mp h1 with h3 | h3
          · exact h3 ▸ List.mem_cons_self _ _
          · exact List.mem_cons_of_mem _ ((ih h.2).mpr (Or.inr ⟨h3, h2⟩))

theorem mem_dictErase_iff {d : List (Nat × α)} {k : Nat} {p : Nat × α}
    (h : (d.map Prod.fst).Nodup) :
    p ∈ dictErase d k ↔ p ∈ d ∧ p.1 ≠ k := by
  induction d with
  | nil => simp [dictErase]
  | cons hd tl ih =>
    obtain ⟨k', v'⟩ := hd
    simp only [List.map_cons, List.nodup_cons] at h
    by_cases hk : k' = k
    · have hred : dictErase ((k', v') :: tl) k = tl := by simp [dictErase, hk]
      rw [hred]
      constructor
      · intro hp
        refine ⟨List.mem_cons_of_mem _ hp, ?_⟩
        intro hpk
        apply h.1
        rw [hk, ← hpk]
        exact List.mem_map_of_mem Prod.fst hp
      · intro ⟨h1, h2⟩
        rcases List.mem_cons.mp h1 with h3 | h3
        · exact absurd (by rw [h3, hk]) h2
        · exact h3
    · have hred : dictErase ((k', v') :: tl) k = (k', v') :: dictErase tl k := by
        simp [dictErase, hk]
      rw [hred]
      constructor
      · intro hp
        rcases List.mem_cons.mp hp with h1 | h1
        · refine ⟨h1 ▸ List.mem_cons_self _ _, ?_⟩
          rw [h1]
          exact hk
        · exact ⟨List.mem_cons_of_mem _ ((ih h.2).mp h1).1, ((ih h.2).mp h1).2⟩
      · intro ⟨h1, h2⟩
        rcases List.mem_cons.mp h1 with h3 | h3
        · exact h3 ▸ List.mem_cons_self _ _
        · exact List.mem_cons_of_mem _ ((ih h.2).mpr ⟨h3, h2⟩)

theorem dictInsert_dictInsert (d : List (Nat × α)) (k : Nat) (v w : α) :
    dictInsert (dictInsert d k v) k w = dictInsert d k w := by
  induction d with
  | nil => simp [dictInsert]
  | cons hd tl ih =>
    obtain ⟨k', v'⟩ := hd
    by_cases hk : k' = k
    · subst hk; simp [dictInsert]
    · simp [dictInsert, hk, ih]

theorem dictInsert_self_of_lookup {d : List (Nat × α)} {k : Nat} {v : α}
    (h : dictLookup d k = some v) : dictInsert d k v = d := by
  induction d with
  | nil => simp [dictLookup] at h
  | cons hd tl ih =>
    obtain ⟨k', v'⟩ := hd
    by_cases hk : k' = k
    · subst hk
      simp [dictLookup] at h
      simp [dictInsert, h]
    · simp [dictLookup, hk] at h
      simp [dictInsert, hk, ih h]

theorem dictErase_of_lookup_none {d : List (Nat × α)} {k : Nat}
    (h : dictLookup d k = none) : dictErase d k = d := by
  induction d with
  | nil => simp [dictErase]
  | cons hd tl ih =>
    obtain ⟨k', v'⟩ := hd
    by_cases hk : k' = k
    · subst hk; simp [dictLookup] at h
    · simp [dictLookup, hk] at h
      simp [dictErase, hk, ih h]

theorem dictInsert_ne_nil (d : List (Nat × α)) (k : Nat) (v : α) :
    dictInsert d k v ≠ [] := by
  cases d with
  | nil => simp [dictInsert]
  | cons hd tl =>
    obtain ⟨k', v'⟩ := hd
    by_cases hk : k' = k <;> simp [dictInsert, hk]

theorem mem_setAdd {s : List Nat} {u x : Nat} :
    x ∈ setAdd s u ↔ x ∈ s ∨ x = u := by
  by_cases h : u ∈ s
  · constructor
    · intro hx; exact Or.inl (by simpa [setAdd, h] using hx)
    · intro hx
      rcases hx with h1 | h1
      · simpa [setAdd, h] using h1
      · simpa [setAdd, h, h1] using h
  · simp [setAdd, h]

theorem nodup_setAdd {s : List Nat} (u : Nat) (h : s.Nodup) :
    (setAdd s u).Nodup := by
  by_cases hm : u ∈ s
  · simpa [setAdd, hm] using h
  · rw [setAdd, if_neg hm]
    refine List.Nodup.append h (List.nodup_singleton u) ?_
    intro a ha hau
    simp only [List.mem_singleton] at hau
    exact hm (hau ▸ ha)

theorem setAdd_ne_nil (s : List Nat) (u : Nat) : setAdd s u ≠ [] := by
  by_cases hm : u ∈ s
  · intro h1
    rw [setAdd, if_pos hm] at h1
    rw [h1] at hm
    simp at hm
  · rw [setAdd, if_neg hm]
    simp

end DictLemmas

section CharLemmas

theorem connect_active (r : Registry) (ws u cal : Nat) :
    (connect r ws u cal).active_connections =
      dictInsert r.active_connections u
        (dictInsert ((dictLookup r.active_connections u).getD []) cal ws) := by
  unfold connect
  cases h : dictLookup r.active_connections u with
  | none => simp [h, dictLookup_insert_self, dictInsert_dictInsert]
  | some inner => simp [h]

theorem connect_subscribers (r : Registry) (ws u cal : Nat) :
    (connect r ws u cal).calendar_subscribers =
      dictInsert r.calendar_subscribers cal
        (setAdd ((dictLookup r.calendar_subscribers cal).getD []) u) := by
  unfold connect
  cases h : dictLookup r.calendar_subscribers cal with
  | none => simp [h, dictLookup_insert_self, dictInsert_dictInsert]
  | some s => simp [h]

theorem lookup2_connect (r : Registry) (ws u cal x c : Nat) :
    lookup2 (connect r ws u cal) x c =
      if x = u ∧ c = cal then some ws else lookup2 r x c := by
  unfold lookup2
  rw [connect_active]
  by_cases hx : x = u
  · subst hx
    rw [dictLookup_insert_self]
    show dictLookup (dictInsert ((dictLookup r.active_connections x).getD []) cal ws) c = _
    by_cases hc : c = cal
    · subst hc
      rw [dictLookup_insert_self]
      simp
    · rw [dictLookup_insert_ne _ _ _ _ hc]
      simp only [hc, and_false, if_false]
      cases h : dictLookup r.active_connections x with
      | none => simp [h, dictLookup]
      | some inner => simp [h]
  · rw [dictLookup_insert_ne _ _ _ _ hx]
    simp [hx]

theorem subsOf_connect (r : Registry) (ws u cal c : Nat) :
    subsOf (connect r ws u cal) c =
      if c = cal then setAdd (subsOf r cal) u else subsOf r c := by
  unfold subsOf
  rw [connect_subscribers]
  by_cases hc : c = cal
  · subst hc
    simp [dictLookup_insert_self]
  · rw [dictLookup_insert_ne _ _ _ _ hc]
    simp [hc]

theorem disconnect_active_eq (r : Registry) (u cal : Nat) :
    (disconnect r u cal).active_connections =
      match dictLookup r.active_connections u with
      | none => r.active_connections
      | some inner =>
        if dictErase inner cal = [] then dictErase r.active_connections u
        else dictInsert r.active_connections u (dictErase inner cal) := by
  unfold disconnect
  cases dictLookup r.active_connections u <;> rfl

theorem disconnect_subscribers_eq (r : Registry) (u cal : Nat) :
    (disconnect r u cal).calendar_subscribers =
      match dictLookup r.calendar_subscribers cal with
      | none => r.calendar_subscribers
      | some s =>
        if s.filter (fun x => x ≠ u) = [] then dictErase r.calendar_subscribers cal
        else dictInsert r.calendar_subscribers cal (s.filter (fun x => x ≠ u)) := by
  unfold disconnect
  cases dictLookup r.calendar_subscribers cal <;> rfl

theorem dictLookup_disconnect_active_ne (r : Registry) (u cal x : Nat)
    (hx : x ≠ u) :
    dictLookup (disconnect r u cal).active_connections x =
      dictLookup r.active_connections x := by
  rw [disconnect_active_eq]
  cases h : dictLookup r.active_connections u with
  | none => rfl
  | some inner =>
    by_cases he : dictErase inner cal = []
    · simp [he, dictLookup_erase_ne _ _ _ hx]
    · simp [he, dictLookup_insert_ne _ _ _ _ hx]

theorem dictLookup_disconnect_active_self (r : Registry) (u cal : Nat)
    (hnd : (r.active_connections.map Prod.fst).Nodup) :
    dictLookup (disconnect r u cal).active_connections u =
      match dictLookup r.active_connections u with
      | none => none
      | some inner =>
        if dictErase inner cal = [] then none else some (dictErase inner cal) := by
  rw [disconnect_active_eq]
  cases h : dictLookup r.active_connections u with
  | none => exact h
  | some inner =>
    by_cases he : dictErase inner cal = []
    · simp [he, dictLookup_erase_self _ hnd]
    · simp [he, dictLookup_insert_self]

theorem lookup2_disconnect_ne (r : Registry) (u cal x c : Nat)
    (hnd : (r.active_connections.map Prod.fst).Nodup)
    (h : ¬(x = u ∧ c = cal)) :
    lookup2 (disconnect r u cal) x c = lookup2 r x c := by
  unfold lookup2
  by_cases hx : x = u
  · subst hx
    have hc : c ≠ cal := fun h1 => h ⟨rfl, h1⟩
    rw [dictLookup_disconnect_active_self _ _ _ hnd]
    cases hu : dictLookup r.active_connections x with
    | none => simp
    | some inner =>
      by_cases he : dictErase inner cal = []
      · simp only [he, if_true]
        have : dictLookup inner c = dictLookup (dictErase inner cal) c :=
          (dictLookup_erase_ne inner cal c hc).symm
        rw [this, he]
        simp [dictLookup]
      · simp only [he, if_false]
        exact dictLookup_erase_ne inner cal c hc
  · rw [dictLookup_disconnect_active_ne _ _ _ _ hx]

theorem lookup2_disconnect_self (r : Registry) (u cal : Nat)
    (hndo : (r.active_connections.map Prod.fst).Nodup)
    (hndi : ∀ p ∈ r.active_connections, (p.2.map Prod.fst).Nodup) :
    lookup2 (disconnect r u cal) u cal = none := by
  unfold lookup2
  rw [dictLookup_disconnect_active_self _ _ _ hndo]
  cases hu : dictLookup r.active_connections u with
  | none => simp
  | some inner =>
    by_cases he : dictErase inner cal = []
    · simp [he]
    · simp only [he, if_false]
      exact dictLookup_erase_self cal (hndi (u, inner) (mem_of_dictLookup hu))

theorem subsOf_disconnect (r : Registry) (u cal c : Nat)
    (hnd : (r.calendar_subscribers.map Prod.fst).Nodup) :
    subsOf (disconnect r u cal) c =
      if c = cal then (subsOf r cal).filter (fun x => x ≠ u) else subsOf r c := by
  unfold subsOf
  rw [disconnect_subscribers_eq]
  by_cases hc : c = cal
  · subst hc
    rw [if_pos rfl]
    cases hs : dictLookup r.calendar_subscribers c with
    | none => simp [hs, subsOf]
    | some s =>
      by_cases he : s.filter (fun x => x ≠ u) = []
      · simp only [hs]
        rw [if_pos he, dictLookup_erase_self c hnd]
        simp only [subsOf, hs, Option.getD_some, Option.getD_none, he]
      · simp only [hs]
        rw [if_neg he, dictLookup_insert_self]
        simp only [subsOf, hs, Option.getD_some]
  · rw [if_neg hc]
    cases hs : dictLookup r.calendar_subscribers cal with
    | none =>
      simp only [hs]
    | some s =>
      by_cases he : s.filter (fun x => x ≠ u) = []
      · simp only [hs]
        rw [if_pos he, dictLookup_erase_ne _ _ _ hc]
      · simp only [hs]
        rw [if_neg he, dictLookup_insert_ne _ _ _ _ hc]

end CharLemmas

section Preservation

theorem wf_empty : WF Registry.empty := by
  constructor <;> simp [Registry.empty]

theorem lookup2_connect_mono {r : Registry} {x c : Nat} (ws u cal : Nat)
    (h : (lookup2 r x c).isSome = true) :
    (lookup2 (connect r ws u cal) x c).isSome = true := by
  rw [lookup2_connect]
  by_cases hcond : x = u ∧ c = cal
  · simp [hcond]
  · simpa [hcond] using h

theorem mem_subsOf_connect_mono {r : Registry} {x c : Nat} (ws u cal : Nat)
    (h : x ∈ subsOf r c) : x ∈ subsOf (connect r ws u cal) c := by
  rw [subsOf_connect]
  by_cases hc : c = cal
  · subst hc
    simp only [if_pos rfl]
    exact mem_setAdd.mpr (Or.inl h)
  · simpa [hc] using h

theorem wf_connect {r : Registry} (ws u cal : Nat) (h : WF r) :
    WF (connect r ws u cal) := by
  have hinner0 : (((dictLookup r.active_connections u).getD []).map Prod.fst).Nodup := by
    cases hL : dictLookup r.active_connections u with
    | none => simp
    | some inner => simpa using h.inner_keys (u, inner) (mem_of_dictLookup hL)
  have hsubs0 : ((dictLookup r.calendar_subscribers cal).getD []).Nodup := by
    cases hL : dictLookup r.calendar_subscribers cal with
    | none => simp
    | some s => simpa using h.subs_nodup (cal, s) (mem_of_dictLookup hL)
  constructor
  · rw [connect_active]
    exact nodup_keys_dictInsert _ _ h.ac_keys
  · rw [connect_subscribers]
    exact nodup_keys_dictInsert _ _ h.cs_keys
  · intro p hp
    rw [connect_active] at hp
    rcases (mem_dictInsert_iff h.ac_keys).mp hp with h1 | ⟨h1, _⟩
    · subst h1
      exact nodup_keys_dictInsert _ _ hinner0
    · exact h.inner_keys p h1
  · intro p hp
    rw [connect_subscribers] at hp
    rcases (mem_dictInsert_iff h.cs_keys).mp hp with h1 | ⟨h1, _⟩
    · subst h1
      exact nodup_setAdd _ hsubs0
    · exact h.subs_nodup p h1
  · intro p hp
    rw [connect_active] at hp
    rcases (mem_dictInsert_iff h.ac_keys).mp hp with h1 | ⟨h1, _⟩
    · subst h1
      exact dictInsert_ne_nil _ _ _
    · exact h.inner_ne p h1
  · intro p hp
    rw [connect_subscribers] at hp
    rcases (mem_dictInsert_iff h.cs_keys).mp hp with h1 | ⟨h1, _⟩
    · subst h1
      exact setAdd_ne_nil _ _
    · exact h.subs_ne p h1
  · intro p hp x hx
    rw [connect_subscribers] at hp
    rcases (mem_dictInsert_iff h.cs_keys).mp hp with h1 | ⟨h1, hne⟩
    · subst h1
      simp only at hx
      rcases mem_setAdd.mp hx with h2 | h2
      · cases hL : dictLookup r.calendar_subscribers cal with
        | none => rw [hL] at h2; simp at h2
        | some s =>
          rw [hL] at h2
          simp only [Option.getD_some] at h2
          exact lookup2_connect_mono ws u cal
            (h.fwd (cal, s) (mem_of_dictLookup hL) x h2)
      · subst h2
        rw [lookup2_connect]
        simp
    · exact lookup2_connect_mono ws u cal (h.fwd p h1 x hx)
  · intro p hp q hq
    rw [connect_active] at hp
    rcases (mem_dictInsert_iff h.ac_keys).mp hp with h1 | ⟨h1, hne⟩
    · subst h1
      simp only at hq
      rcases (mem_dictInsert_iff hinner0).mp hq with h2 | ⟨h2, hqc⟩
      · subst h2
        simp only
        rw [subsOf_connect]
        simp only [if_pos rfl]
        exact mem_setAdd.mpr (Or.inr rfl)
      · cases hL : dictLookup r.active_connections u with
        | none => rw [hL] at h2; simp at h2
        | some inner =>
          rw [hL] at h2
          simp only [Option.getD_some] at h2
          exact mem_subsOf_connect_mono ws u cal
            (h.bwd (u, inner) (mem_of_dictLookup hL) q h2)
    · exact mem_subsOf_connect_mono ws u cal (h.bwd p h1 q hq)

end Preservation

theorem mem_disconnect_active {r : Registry} {u cal : Nat}
    {p : Nat × List (Nat × Nat)} (h : WF r)
    (hp : p ∈ (disconnect r u cal).active_connections) :
    (p ∈ r.active_connections ∧ p.1 ≠ u) ∨
      (∃ inner, dictLookup r.active_connections u = some inner ∧
        p = (u, dictErase inner cal) ∧ dictErase inner cal ≠ []) := by
  rw [disconnect_active_eq] at hp
  cases hu : dictLookup r.active_connections u with
  | none =>
    simp only [hu] at hp
    refine Or.inl ⟨hp, ?_⟩
    intro h1
    exact (dictLookup_eq_none.mp hu) (h1 ▸ List.mem_map_of_mem Prod.fst hp)
  | some inner =>
    simp only [hu] at hp
    by_cases he : dictErase inner cal = []
    · rw [if_pos he] at hp
      exact Or.inl ((mem_dictErase_iff h.ac_keys).mp hp)
    · rw [if_neg he] at hp
      rcases (mem_dictInsert_iff h.ac_keys).mp hp with h1 | h1
      · exact Or.inr ⟨inner, rfl, h1, he⟩
      · exact Or.inl h1

theorem mem_disconnect_subs {r : Registry} {u cal : Nat}
    {p : Nat × List Nat} (h : WF r)
    (hp : p ∈ (disconnect r u cal).calendar_subscribers) :
    (p ∈ r.calendar_subscribers ∧ p.1 ≠ cal) ∨
      (∃ s, dictLookup r.calendar_subscribers cal = some s ∧
        p = (cal, s.filter (fun x => x ≠ u)) ∧ s.filter (fun x => x ≠ u) ≠ []) := by
  rw [disconnect_subscribers_eq] at hp
  cases hs : dictLookup r.calendar_subscribers cal with
  | none =>
    simp only [hs] at hp
    refine Or.inl ⟨hp, ?_⟩
    intro h1
    exact (dictLookup_eq_none.mp hs) (h1 ▸ List.mem_map_of_mem Prod.fst hp)
  | some s =>
    simp only [hs] at hp
    by_cases he : s.filter (fun x => x ≠ u) = []
    · rw [if_pos he] at hp
      exact Or.inl ((mem_dictErase_iff h.cs_keys).mp hp)
    · rw [if_neg he] at hp
      rcases (mem_dictInsert_iff h.cs_keys).mp hp with h1 | h1
      · exact Or.inr ⟨s, rfl, h1, he⟩
      · exact Or.inl h1

theorem wf_disconnect {r : Registry} (u cal : Nat) (h : WF r) :
    WF (disconnect r u cal) := by
  constructor
  · rw [disconnect_active_eq]
    cases hL : dictLookup r.active_connections u with
    | none => exact h.ac_keys
    | some inner =>
      simp only
      by_cases he : dictErase inner cal = []
      · rw [if_pos he]
        exact nodup_keys_dictErase _ h.ac_keys
      · rw [if_neg he]
        exact nodup_keys_dictInsert _ _ h.ac_keys
  · rw [disconnect_subscribers_eq]
    cases hL : dictLookup r.calendar_subscribers cal with
    | none => exact h.cs_keys
    | some s =>
      simp only
      by_cases he : s.filter (fun x => x ≠ u) = []
      · rw [if_pos he]
        exact nodup_keys_dictErase _ h.cs_keys
      · rw [if_neg he]
        exact nodup_keys_dictInsert _ _ h.cs_keys
  · intro p hp
    rcases mem_disconnect_active h hp with ⟨h1, _⟩ | ⟨inner, hu, h1, _⟩
    · exact h.inner_keys p h1
    · subst h1
      simp only
      exact nodup_keys_dictErase _ (h.inner_keys (u, inner) (mem_of_dictLookup hu))
  · intro p hp
    rcases mem_disconnect_subs h hp with ⟨h1, _⟩ | ⟨s, hs, h1, _⟩
    · exact h.subs_nodup p h1
    · subst h1
      simp only
      exact List.Nodup.filter _ (h.subs_nodup (cal, s) (mem_of_dictLookup hs))
  · intro p hp
    rcases mem_disconnect_active h hp with ⟨h1, _⟩ | ⟨inner, hu, h1, hne⟩
    · exact h.inner_ne p h1
    · subst h1
      exact hne
  · intro p hp
    rcases mem_disconnect_subs h hp with ⟨h1, _⟩ | ⟨s, hs, h1, hne⟩
    · exact h.subs_ne p h1
    · subst h1
      exact hne
  · intro p hp x hx
    rcases mem_disconnect_subs h hp with ⟨h1, hpc⟩ | ⟨s, hs, h1, _⟩
    · rw [lookup2_disconnect_ne r u cal x p.1 h.ac_keys (fun h2 => hpc h2.2)]
      exact h.fwd p h1 x hx
    · subst h1
      simp only at hx
      have hx' : x ∈ s ∧ x ≠ u := by
        have := List.mem_filter.mp hx
        simpa using this
      rw [lookup2_disconnect_ne r u cal x cal h.ac_keys (fun h2 => hx'.2 h2.1)]
      exact h.fwd (cal, s) (mem_of_dictLookup hs) x hx'.1
  · intro p hp q hq
    rcases mem_disconnect_active h hp with ⟨h1, hpu⟩ | ⟨inner, hu, h1, _⟩
    · have hold := h.bwd p h1 q hq
      rw [subsOf_disconnect r u cal q.1 h.cs_keys]
      by_cases hc : q.1 = cal
      · rw [if_pos hc]
        rw [hc] at hold
        exact List.mem_filter.mpr ⟨hold, by simpa using hpu⟩
      · rwa [if_neg hc]
    · subst h1
      simp only at hq
      have hq' : q ∈ inner ∧ q.1 ≠ cal :=
        (mem_dictErase_iff (h.inner_keys (u, inner) (mem_of_dictLookup hu))).mp hq
      have hold := h.bwd (u, inner) (mem_of_dictLookup hu) q hq'.1
      rw [subsOf_disconnect r u cal q.1 h.cs_keys, if_neg hq'.2]
      exact hold

/-- The event produced for one subscriber during `broadcast_to_calendar`:
`none` when the two `in` guards reject the user, otherwise the attempted
send with its outcome. -/
def bcAttempt (r : Registry) (fails : Nat → Bool) (cal_id message u_id : Nat) :
    Option SendEvent :=
  match lookup2 r u_id cal_id with
  | none => none
  | some websocket => some ⟨websocket, u_id, cal_id, message, !fails websocket⟩

/-- Whether a subscriber's send attempt during `broadcast_to_calendar`
fails (false when the guards reject the user and no send is attempted). -/
def bcFails (r : Registry) (fails : Nat → Bool) (cal_id u_id : Nat) : Bool :=
  match lookup2 r u_id cal_id with
  | none => false
  | some websocket => fails websocket

theorem foldl_bcStep (r : Registry) (fails : Nat → Bool) (cal msg : Nat)
    (l : List Nat) (evs : List SendEvent) (dis : List (Nat × Nat)) :
    l.foldl (bcStep r fails cal msg) (evs, dis) =
      (evs ++ l.filterMap (bcAttempt r fails cal msg),
       dis ++ (l.filter (bcFails r fails cal)).map (fun u => (u, cal))) := by
  induction l generalizing evs dis with
  | nil => simp
  | cons a l ih =>
    simp only [List.foldl_cons]
    cases hL : lookup2 r a cal with
    | none =>
      have hstep : bcStep r fails cal msg (evs, dis) a = (evs, dis) := by
        simp [bcStep, hL]
      rw [hstep, ih]
      simp [List.filterMap_cons, List.filter_cons, bcAttempt, bcFails, hL]
    | some ws =>
      by_cases hf : fails ws
      · have hstep : bcStep r fails cal msg (evs, dis) a =
            (evs ++ [⟨ws, a, cal, msg, false⟩], dis ++ [(a, cal)]) := by
          simp [bcStep, hL, hf]
        rw [hstep, ih]
        simp [List.filterMap_cons, List.filter_cons, bcAttempt, bcFails, hL, hf]
      · have hstep : bcStep r fails cal msg (evs, dis) a =
            (evs ++ [⟨ws, a, cal, msg, true⟩], dis) := by
          simp [bcStep, hL, hf]
        rw [hstep, ih]
        simp [List.filterMap_cons, List.filter_cons, bcAttempt, bcFails, hL, hf]

theorem broadcast_to_calendar_eq (r : Registry) (fails : Nat → Bool)
    (cal msg : Nat) (ex : Option Nat) :
    broadcast_to_calendar r fails cal msg ex =
      match dictLookup r.calendar_subscribers cal with
      | none => (r, [])
      | some subs0 =>
        let subscribers :=
          match ex with
          | none => subs0
          | some eu => subs0.filter (fun x => x ≠ eu)
        (((subscribers.filter (bcFails r fails cal)).map
            (fun u => (u, cal))).foldl (fun s p => disconnect s p.1 p.2) r,
         subscribers.filterMap (bcAttempt r fails cal msg)) := by
  unfold broadcast_to_calendar
  cases dictLookup r.calendar_subscribers cal with
  | none => rfl
  | some subs0 =>
    simp only [foldl_bcStep, List.nil_append]

theorem foldl_buStep (fails : Nat → Bool) (u msg : Nat)
    (l : List (Nat × Nat)) (evs : List SendEvent) (dis : List Nat) :
    l.foldl (buStep fails u msg) (evs, dis) =
      (evs ++ l.map (fun p => ⟨p.2, u, p.1, msg, !fails p.2⟩),
       dis ++ (l.filter (fun p => fails p.2)).map Prod.fst) := by
  induction l generalizing evs dis with
  | nil => simp
  | cons a l ih =>
    simp only [List.foldl_cons]
    by_cases hf : fails a.2
    · have hstep : buStep fails u msg (evs, dis) a =
          (evs ++ [⟨a.2, u, a.1, msg, false⟩], dis ++ [a.1]) := by
        simp [buStep, hf]
      rw [hstep, ih]
      simp [List.filter_cons, hf]
    · have hstep : buStep fails u msg (evs, dis) a =
          (evs ++ [⟨a.2, u, a.1, msg, true⟩], dis) := by
        simp [buStep, hf]
      rw [hstep, ih]
      simp [List.filter_cons, hf]

theorem broadcast_to_user_eq (r : Registry) (fails : Nat → Bool)
    (u msg : Nat) :
    broadcast_to_user r fails u msg =
      match dictLookup r.active_connections u with
      | none => (r, [])
      | some inner =>
        (((inner.filter (fun p => fails p.2)).map Prod.fst).foldl
            (fun s c => disconnect s u c) r,
         inner.map (fun p => ⟨p.2, u, p.1, msg, !fails p.2⟩)) := by
  unfold broadcast_to_user
  cases dictLookup r.active_connections u with
  | none => rfl
  | some inner =>
    simp only [foldl_buStep, List.nil_append]

theorem wf_foldl_disconnect {r : Registry} (h : WF r) (l : List (Nat × Nat)) :
    WF (l.foldl (fun s p => disconnect s p.1 p.2) r) := by
  induction l generalizing r with
  | nil => exact h
  | cons a l ih => exact ih (wf_disconnect _ _ h)

theorem wf_foldl_disconnect_user {r : Registry} (u : Nat) (h : WF r)
    (l : List Nat) : WF (l.foldl (fun s c => disconnect s u c) r) := by
  induction l generalizing r with
  | nil => exact h
  | cons a l ih => exact ih (wf_disconnect _ _ h)

theorem wf_broadcast_to_calendar {r : Registry} (fails : Nat → Bool)
    (cal msg : Nat) (ex : Option Nat) (h : WF r) :
    WF (broadcast_to_calendar r fails cal msg ex).1 := by
  rw [broadcast_to_calendar_eq]
  cases dictLookup r.calendar_subscribers cal with
  | none => exact h
  | some subs0 => exact wf_foldl_disconnect h _

theorem wf_broadcast_to_user {r : Registry} (fails : Nat → Bool)
    (u msg : Nat) (h : WF r) :
    WF (broadcast_to_user r fails u msg).1 := by
  rw [broadcast_to_user_eq]
  cases dictLookup r.active_connections u with
  | none => exact h
  | some inner => exact wf_foldl_disconnect_user u h _

theorem wf_send_personal {r : Registry} (fails : Nat → Bool)
    (msg u cal : Nat) (h : WF r) :
    WF (send_personal_message r fails msg u cal).1 := by
  unfold send_personal_message
  cases lookup2 r u cal with
  | none => exact h
  | some ws =>
    by_cases hf : fails ws
    · simp only [hf, if_true]
      exact wf_disconnect u cal h
    · simp only [hf, if_false]
      exact h

theorem reachable_wf {r : Registry} (h : Reachable r) : WF r := by
  induction h with
  | empty => exact wf_empty
  | conn r ws u cal _ ih => exact wf_connect ws u cal ih
  | disc r u cal _ ih => exact wf_disconnect u cal ih
  | bcal r fails cal msg ex _ ih => exact wf_broadcast_to_calendar fails cal msg ex ih
  | buser r fails u msg _ ih => exact wf_broadcast_to_user fails u msg ih
  | pers r fails msg u cal _ ih => exact wf_send_personal fails msg u cal ih

theorem wf_mem_iff {r : Registry} (h : WF r) (u cal : Nat) :
    memSubs r cal u ↔ (lookup2 r u cal).isSome = true := by
  constructor
  · intro hm
    unfold memSubs subsOf at hm
    cases hL : dictLookup r.calendar_subscribers cal with
    | none => rw [hL] at hm; simp at hm
    | some s =>
      rw [hL] at hm
      simp only [Option.getD_some] at hm
      exact h.fwd (cal, s) (mem_of_dictLookup hL) u hm
  · intro hs
    cases hL : dictLookup r.active_connections u with
    | none =>
      simp only [lookup2, hL, Option.isSome_none] at hs
      exact absurd hs (by simp)
    | some inner =>
      cases hc : dictLookup inner cal with
      | none =>
        simp only [lookup2, hL, hc, Option.isSome_none] at hs
        exact absurd hs (by simp)
      | some ws =>
        exact h.bwd (u, inner) (mem_of_dictLookup hL) (cal, ws) (mem_of_dictLookup hc)

theorem registry_eq_of_fields {r1 r2 : Registry}
    (ha : r1.active_connections = r2.active_connections)
    (hc : r1.calendar_subscribers = r2.calendar_subscribers) : r1 = r2 := by
  cases r1
  cases r2
  simp_all

theorem get_calendar_subscriber_count_eq (r : Registry) (cal : Nat) :
    get_calendar_subscriber_count r cal = (subsOf r cal).length := by
  unfold get_calendar_subscriber_count subsOf
  cases dictLookup r.calendar_subscribers cal <;> simp

theorem subsOf_nodup {r : Registry} (h : WF r) (cal : Nat) :
    (subsOf r cal).Nodup := by
  unfold subsOf
  cases hL : dictLookup r.calendar_subscribers cal with
  | none => simp
  | some s => simpa using h.subs_nodup (cal, s) (mem_of_dictLookup hL)

theorem setAdd_setAdd (s : List Nat) (u : Nat) :
    setAdd (setAdd s u) u = setAdd s u := by
  have h1 : u ∈ setAdd s u := mem_setAdd.mpr (Or.inr rfl)
  rw [show setAdd (setAdd s u) u =
        if u ∈ setAdd s u then setAdd s u else setAdd s u ++ [u] from rfl,
      if_pos h1]

/-- C1: Registry consistency invariant (spec I2): in every reachable
registry state, a user is a member of a calendar's subscriber set exactly
when a connection entry for that (user, calendar) pair exists; `Reachable`
closes the states under connect, disconnect, both broadcasts (including
their failed-send cleanup) and `send_personal_message`, so every operation
preserves the equivalence. -/
theorem registry_consistency_invariant {r : Registry} (h : Reachable r)
    (u cal : Nat) :
    memSubs r cal u ↔ (lookup2 r u cal).isSome = true :=
  wf_mem_iff (reachable_wf h) u cal

theorem registry_consistency_invariant_witness :
    memSubs (connect Registry.empty 10 1 2) 2 1 ↔
      (lookup2 (connect Registry.empty 10 1 2) 1 2).isSome = true :=
  registry_consistency_invariant
    (Reachable.conn Registry.empty 10 1 2 Reachable.empty) 1 2

/-- C4: Idempotent disconnect: on every reachable registry state,
`disconnect` run twice at the same pair equals `disconnect` run once
(the second run is a no-op, raising nothing — the model is total and the
source's `del`s are guarded by `in` checks), and `disconnect` of a pair
with no registered connection leaves the registry unchanged. -/
theorem disconnect_idempotent {r : Registry} (h : Reachable r) (u cal : Nat) :
    disconnect (disconnect r u cal) u cal = disconnect r u cal ∧
      (lookup2 r u cal = none → disconnect r u cal = r) := by
  have hWF := reachable_wf h
  have hWF1 := wf_disconnect u cal hWF
  constructor
  · apply registry_eq_of_fields
    · cases hL : dictLookup (disconnect r u cal).active_connections u with
      | none => rw [disconnect_active_eq (disconnect r u cal) u cal, hL]
      | some inner1 =>
        rw [disconnect_active_eq (disconnect r u cal) u cal]
        simp only [hL]
        have hcal : dictLookup inner1 cal = none := by
          have h2 := lookup2_disconnect_self r u cal hWF.ac_keys hWF.inner_keys
          simp only [lookup2, hL] at h2
          exact h2
        rw [dictErase_of_lookup_none hcal,
            if_neg (hWF1.inner_ne (u, inner1) (mem_of_dictLookup hL))]
        exact dictInsert_self_of_lookup hL
    · cases hL : dictLookup (disconnect r u cal).calendar_subscribers cal with
      | none => rw [disconnect_subscribers_eq (disconnect r u cal) u cal, hL]
      | some s1 =>
        rw [disconnect_subscribers_eq (disconnect r u cal) u cal]
        simp only [hL]
        have hu : u ∉ s1 := by
          have h2 : subsOf (disconnect r u cal) cal =
              (subsOf r cal).filter (fun x => x ≠ u) := by
            rw [subsOf_disconnect r u cal cal hWF.cs_keys, if_pos rfl]
          unfold subsOf at h2
          rw [hL] at h2
          simp only [Option.getD_some] at h2
          intro hmem
          rw [h2] at hmem
          simp at hmem
        have hf : s1.filter (fun x => x ≠ u) = s1 := by
          apply List.filter_eq_self.mpr
          intro a ha
          simp only [decide_eq_true_eq]
          intro hau
          exact hu (hau ▸ ha)
        rw [hf, if_neg (hWF1.subs_ne (cal, s1) (mem_of_dictLookup hL))]
        exact dictInsert_self_of_lookup hL
  · intro hnone
    apply registry_eq_of_fields
    · cases hL : dictLookup r.active_connections u with
      | none => rw [disconnect_active_eq, hL]
      | some inner =>
        rw [disconnect_active_eq]
        simp only [hL]
        have hcal : dictLookup inner cal = none := by
          simp only [lookup2, hL] at hnone
          exact hnone
        rw [dictErase_of_lookup_none hcal,
            if_neg (hWF.inner_ne (u, inner) (mem_of_dictLookup hL))]
        exact dictInsert_self_of_lookup hL
    · cases hL : dictLookup r.calendar_subscribers cal with
      | none => rw [disconnect_subscribers_eq, hL]
      | some s =>
        rw [disconnect_subscribers_eq]
        simp only [hL]
        have hu : u ∉ s := by
          intro hmem
          have h2 := hWF.fwd (cal, s) (mem_of_dictLookup hL) u hmem
          rw [hnone] at h2
          simp at h2
        have hf : s.filter (fun x => x ≠ u) = s := by
          apply List.filter_eq_self.mpr
          intro a ha
          simp only [decide_eq_true_eq]
          intro hau
          exact hu (hau ▸ ha)
        rw [hf, if_neg (hWF.subs_ne (cal, s) (mem_of_dictLookup hL))]
        exact dictInsert_self_of_lookup hL

theorem disconnect_idempotent_witness :
    disconnect (disconnect (connect Registry.empty 10 1 2) 3 4) 3 4 =
        disconnect (connect Registry.empty 10 1 2) 3 4 ∧
      (lookup2 (connect Registry.empty 10 1 2) 3 4 = none →
        disconnect (connect Registry.empty 10 1 2) 3 4 =
          connect Registry.empty 10 1 2) :=
  disconnect_idempotent
    (Reachable.conn Registry.empty 10 1 2 Reachable.empty) 3 4

/-- C5: Registration with replace-on-reconnect: on every reachable state,
after `connect` the calendar's subscriber count is at least 1, the user
appears in the subscriber set exactly once, the stored channel is the one
just passed, and a consecutive `connect` for the same pair collapses —
it replaces the channel without adding a duplicate subscriber. -/
theorem connect_registration {r : Registry} (h : Reachable r)
    (ws ws' u cal : Nat) :
    1 ≤ get_calendar_subscriber_count (connect r ws u cal) cal ∧
    (subsOf (connect r ws u cal) cal).count u = 1 ∧
    lookup2 (connect r ws u cal) u cal = some ws ∧
    connect (connect r ws u cal) ws' u cal = connect r ws' u cal := by
  have hWF := reachable_wf h
  refine ⟨?_, ?_, ?_, ?_⟩
  · rw [get_calendar_subscriber_count_eq, subsOf_connect, if_pos rfl]
    exact List.length_pos.mpr (setAdd_ne_nil _ _)
  · rw [subsOf_connect, if_pos rfl]
    exact List.count_eq_one_of_mem (nodup_setAdd _ (subsOf_nodup hWF cal))
      (mem_setAdd.mpr (Or.inr rfl))
  · rw [lookup2_connect]
    simp
  · apply registry_eq_of_fields
    · rw [connect_active (connect r ws u cal) ws' u cal,
          connect_active r ws' u cal, connect_active r ws u cal,
          dictLookup_insert_self]
      simp only [Option.getD_some]
      rw [dictInsert_dictInsert, dictInsert_dictInsert]
    · rw [connect_subscribers (connect r ws u cal) ws' u cal,
          connect_subscribers r ws' u cal, connect_subscribers r ws u cal,
          dictLookup_insert_self]
      simp only [Option.getD_some]
      rw [setAdd_setAdd, dictInsert_dictInsert]

theorem connect_registration_witness :
    1 ≤ get_calendar_subscriber_count (connect Registry.empty 5 1 2) 2 ∧
    (subsOf (connect Registry.empty 5 1 2) 2).count 1 = 1 ∧
    lookup2 (connect Registry.empty 5 1 2) 1 2 = some 5 ∧
    connect (connect Registry.empty 5 1 2) 6 1 2 = connect Registry.empty 6 1 2 :=
  connect_registration Reachable.empty 5 6 1 2

/-- C9: Connect sends nothing: the action trace of `connect` is exactly the
channel accept — no send action occurs — and its registry effect is exactly
the pure map update; the `connection:established` acknowledgment is sent by
`websocket_endpoint` itself, on the channel, strictly after `connect`
returns. -/
theorem connect_sends_nothing (r : Registry) (ws u cal ack : Nat) :
    (connectA r ws u cal).1 = connect r ws u cal ∧
    (∀ ch m, ChanAction.send ch m ∉ (connectA r ws u cal).2) ∧
    endpoint_register r ws u cal ack =
      (connect r ws u cal, [ChanAction.accept ws, ChanAction.send ws ack]) := by
  refine ⟨rfl, ?_, rfl⟩
  intro ch m hmem
  simp [connectA] at hmem

theorem foldlM_ok {β γ : Type} (f : β → γ → Except String β) (g : β → γ → β)
    (hf : ∀ a x, f a x = Except.ok (g a x)) :
    ∀ (l : List γ) (a : β), l.foldlM f a = Except.ok (l.foldl g a) := by
  intro l
  induction l with
  | nil => intro a; rfl
  | cons x l ih =>
    intro a
    rw [List.foldlM_cons, hf]
    show l.foldlM f (g a x) = _
    rw [ih, List.foldl_cons]

/-- C3: Broadcasts never raise: in the exception semantics, where each
`send_json` may throw and the `try/except` handler is an explicit `match`,
both broadcast operations return `Except.ok` of exactly the value the pure
model computes, for every registry state, message and combination of
per-channel send outcomes — no send exception reaches the caller. -/
theorem broadcasts_never_raise (r : Registry) (fails : Nat → Bool)
    (cal u msg : Nat) (ex : Option Nat) :
    broadcast_to_calendarE r fails cal msg ex =
      Except.ok (broadcast_to_calendar r fails cal msg ex) ∧
    broadcast_to_userE r fails u msg =
      Except.ok (broadcast_to_user r fails u msg) := by
  constructor
  · have hstep : ∀ acc x, bcStepE r fails cal msg acc x =
        Except.ok (bcStep r fails cal msg acc x) := by
      intro acc x
      unfold bcStepE bcStep send_json
      cases lookup2 r x cal with
      | none => rfl
      | some ws => by_cases hf : fails ws <;> simp [hf]
    cases hL : dictLookup r.calendar_subscribers cal with
    | none =>
      unfold broadcast_to_calendarE broadcast_to_calendar
      rw [hL]
    | some subs0 =>
      unfold broadcast_to_calendarE broadcast_to_calendar
      simp only [hL]
      cases ex with
      | none =>
        rw [foldlM_ok _ _ hstep]
        rfl
      | some eu =>
        rw [foldlM_ok _ _ hstep]
        rfl
  · have hstep : ∀ acc p, buStepE fails u msg acc p =
        Except.ok (buStep fails u msg acc p) := by
      intro acc p
      unfold buStepE buStep send_json
      by_cases hf : fails p.2 <;> simp [hf]
    cases hL : dictLookup r.active_connections u with
    | none =>
      unfold broadcast_to_userE broadcast_to_user
      rw [hL]
    | some inner =>
      unfold broadcast_to_userE broadcast_to_user
      simp only [hL]
      rw [foldlM_ok _ _ hstep]
      rfl

/-- C7: Cleanup cascade and no empty containers: in every reachable state
no subscriber set and no inner connection map is empty (spec I1), and a
user with zero connections has no entry in `active_connections` and
appears in no subscriber set — covering in particular every state produced
by removing the user's last connection via `disconnect` or failed-send
cleanup. -/
theorem cleanup_cascade {r : Registry} (h : Reachable r) (u : Nat) :
    (∀ p ∈ r.calendar_subscribers, p.2 ≠ []) ∧
    (∀ p ∈ r.active_connections, p.2 ≠ []) ∧
    (get_user_connections r u = 0 →
      dictLookup r.active_connections u = none ∧
      ∀ p ∈ r.calendar_subscribers, u ∉ p.2) := by
  have hWF := reachable_wf h
  refine ⟨hWF.subs_ne, hWF.inner_ne, ?_⟩
  intro h0
  have hnone : dictLookup r.active_connections u = none := by
    cases hL : dictLookup r.active_connections u with
    | none => rfl
    | some inner =>
      unfold get_user_connections at h0
      rw [hL] at h0
      exact absurd (List.length_eq_zero.mp h0)
        (hWF.inner_ne (u, inner) (mem_of_dictLookup hL))
  refine ⟨hnone, ?_⟩
  intro p hp hu
  have h2 := hWF.fwd p hp u hu
  simp only [lookup2, hnone] at h2
  simp at h2

theorem cleanup_cascade_witness :
    (∀ p ∈ (disconnect (connect Registry.empty 10 1 2) 1 2).calendar_subscribers,
        p.2 ≠ []) ∧
    (∀ p ∈ (disconnect (connect Registry.empty 10 1 2) 1 2).active_connections,
        p.2 ≠ []) ∧
    (get_user_connections (disconnect (connect Registry.empty 10 1 2) 1 2) 1 = 0 →
      dictLookup (disconnect (connect Registry.empty 10 1 2) 1 2).active_connections 1 = none ∧
      ∀ p ∈ (disconnect (connect Registry.empty 10 1 2) 1 2).calendar_subscribers,
        (1 : Nat) ∉ p.2) :=
  cleanup_cascade
    (Reachable.disc (connect Registry.empty 10 1 2) 1 2
      (Reachable.conn Registry.empty 10 1 2 Reachable.empty)) 1

/-- C10: Personal-message semantics: on every reachable state,
`send_personal_message` is a no-op (no registry change, no send) when no
connection is registered for the pair; when the registered channel's send
fails, the result is exactly `disconnect` of that pair — that pair's entry
is gone, every other connection lookup and every other calendar's
subscriber set is unchanged, and the pair's calendar merely loses the user
— and in the exception semantics the call still returns `Except.ok`. -/
theorem send_personal_semantics {r : Registry} (h : Reachable r)
    (fails : Nat → Bool) (msg u cal : Nat) :
    (lookup2 r u cal = none →
      send_personal_message r fails msg u cal = (r, [])) ∧
    (∀ ws, lookup2 r u cal = some ws → fails ws = true →
      send_personal_message r fails msg u cal =
        (disconnect r u cal, [⟨ws, u, cal, msg, false⟩]) ∧
      lookup2 (disconnect r u cal) u cal = none ∧
      (∀ x c, ¬(x = u ∧ c = cal) →
        lookup2 (disconnect r u cal) x c = lookup2 r x c) ∧
      (∀ c, c ≠ cal → subsOf (disconnect r u cal) c = subsOf r c) ∧
      (∀ v, v ∈ subsOf (disconnect r u cal) cal ↔ v ∈ subsOf r cal ∧ v ≠ u)) ∧
    send_personal_messageE r fails msg u cal =
      Except.ok (send_personal_message r fails msg u cal) := by
  have hWF := reachable_wf h
  refine ⟨?_, ?_, ?_⟩
  · intro hnone
    unfold send_personal_message
    simp only [hnone]
  · intro ws hws hf
    refine ⟨?_, ?_, ?_, ?_, ?_⟩
    · unfold send_personal_message
      simp only [hws, hf, if_true]
    · exact lookup2_disconnect_self r u cal hWF.ac_keys hWF.inner_keys
    · intro x c hxc
      exact lookup2_disconnect_ne r u cal x c hWF.ac_keys hxc
    · intro c hc
      rw [subsOf_disconnect r u cal c hWF.cs_keys, if_neg hc]
    · intro v
      rw [subsOf_disconnect r u cal cal hWF.cs_keys, if_pos rfl]
      simp [List.mem_filter]
  · unfold send_personal_messageE send_personal_message send_json
    cases lookup2 r u cal with
    | none => rfl
    | some ws => by_cases hf : fails ws <;> simp [hf]

theorem send_personal_semantics_witness :
    (lookup2 (connect Registry.empty 10 1 2) 1 2 = none →
      send_personal_message (connect Registry.empty 10 1 2)
        (fun _ => true) 7 1 2 = (connect Registry.empty 10 1 2, [])) ∧
    (∀ ws, lookup2 (connect Registry.empty 10 1 2) 1 2 = some ws →
      (fun (_ : Nat) => true) ws = true →
      send_personal_message (connect Registry.empty 10 1 2)
          (fun _ => true) 7 1 2 =
        (disconnect (connect Registry.empty 10 1 2) 1 2, [⟨ws, 1, 2, 7, false⟩]) ∧
      lookup2 (disconnect (connect Registry.empty 10 1 2) 1 2) 1 2 = none ∧
      (∀ x c, ¬(x = 1 ∧ c = 2) →
        lookup2 (disconnect (connect Registry.empty 10 1 2) 1 2) x c =
          lookup2 (connect Registry.empty 10 1 2) x c) ∧
      (∀ c, c ≠ 2 → subsOf (disconnect (connect Registry.empty 10 1 2) 1 2) c =
        subsOf (connect Registry.empty 10 1 2) c) ∧
      (∀ v, v ∈ subsOf (disconnect (connect Registry.empty 10 1 2) 1 2) 2 ↔
        v ∈ subsOf (connect Registry.empty 10 1 2) 2 ∧ v ≠ 1)) ∧
    send_personal_messageE (connect Registry.empty 10 1 2)
        (fun _ => true) 7 1 2 =
      Except.ok (send_personal_message (connect Registry.empty 10 1 2)
        (fun _ => true) 7 1 2) :=
  send_personal_semantics
    (Reachable.conn Registry.empty 10 1 2 Reachable.empty)
    (fun _ => true) 7 1 2

/-- Number of successful deliveries (events with `ok = true`) to user `v`
in an event trace. -/
def deliveredTo (evs : List SendEvent) (v : Nat) : Nat :=
  evs.countP (fun e => decide (e.user = v) && e.ok)

/-- Whether `broadcast_to_calendar` would successfully deliver to user `v`:
the guards accept the user and the channel's send succeeds. -/
def bcDelivers (r : Registry) (fails : Nat → Bool) (cal_id v : Nat) : Bool :=
  match lookup2 r v cal_id with
  | none => false
  | some websocket => !fails websocket

theorem deliveredTo_nil (v : Nat) : deliveredTo [] v = 0 := rfl

theorem deliveredTo_bc (r : Registry) (fails : Nat → Bool) (cal msg : Nat)
    (l : List Nat) (hnd : l.Nodup) (v : Nat) :
    deliveredTo (l.filterMap (bcAttempt r fails cal msg)) v =
      if v ∈ l ∧ bcDelivers r fails cal v = true then 1 else 0 := by
  induction l with
  | nil => simp [deliveredTo]
  | cons a l ih =>
    simp only [List.nodup_cons] at hnd
    have ihl := ih hnd.2
    rw [List.filterMap_cons]
    cases hA : bcAttempt r fails cal msg a with
    | none =>
      rw [ihl]
      by_cases hv : v = a
      · subst hv
        have hBD : bcDelivers r fails cal v = false := by
          unfold bcAttempt at hA
          unfold bcDelivers
          cases hL : lookup2 r v cal with
          | none => rfl
          | some ws => rw [hL] at hA; simp at hA
        simp [hnd.1, hBD]
      · simp [hv]
    | some e =>
      unfold bcAttempt at hA
      cases hL : lookup2 r a cal with
      | none => rw [hL] at hA; simp at hA
      | some ws =>
        rw [hL] at hA
        simp only [Option.some.injEq] at hA
        unfold deliveredTo at ihl ⊢
        rw [List.countP_cons, ihl]
        by_cases hv : v = a
        · subst hv
          have hBD : bcDelivers r fails cal v = !fails ws := by
            unfold bcDelivers
            rw [hL]
          have hvl : v ∉ l := hnd.1
          rw [← hA]
          simp only [hvl, false_and, if_false, hBD]
          cases hf : fails ws <;> simp [← hA, hf]
        · have hane : ¬(a = v) := fun h1 => hv h1.symm
          have hpred : (decide (e.user = v) && e.ok) = false := by
            rw [← hA]
            simp [hane]
          rw [hpred]
          simp [hv]

theorem length_eq_two_of_mem_iff {l : List Nat} {a b : Nat} (hnd : l.Nodup)
    (hab : a ≠ b) (hmem : ∀ x, x ∈ l ↔ x = a ∨ x = b) : l.length = 2 := by
  have hperm : l.Perm [a, b] := by
    rw [List.perm_ext_iff_of_nodup hnd (by simp [hab])]
    intro x
    rw [hmem x]
    simp
  simpa using hperm.length_eq

theorem filter_eq_singleton {l : List Nat} {p : Nat → Bool} {b : Nat}
    (hnd : l.Nodup) (hb : b ∈ l) (hpb : p b = true)
    (honly : ∀ x ∈ l, p x = true → x = b) : l.filter p = [b] := by
  induction l with
  | nil => simp at hb
  | cons a l ih =>
    simp only [List.nodup_cons] at hnd
    rcases List.mem_cons.mp hb with hba | hbl
    · subst hba
      rw [List.filter_cons, if_pos hpb]
      have hnil : l.filter p = [] := by
        rw [List.filter_eq_nil]
        intro x hx hpx
        exact hnd.1 ((honly x (List.mem_cons_of_mem _ hx) hpx) ▸ hx)
      rw [hnil]
    · have hpa : p a = false := by
        cases hpa : p a with
        | false => rfl
        | true =>
          exact absurd ((honly a (List.mem_cons_self _ _) hpa) ▸ hbl)
            hnd.1
      rw [List.filter_cons, hpa, if_neg Bool.false_ne_true]
      exact ih hnd.2 hbl
        (fun x hx hpx => honly x (List.mem_cons_of_mem _ hx) hpx)

theorem broadcast_to_calendar_events (r : Registry) (fails : Nat → Bool)
    (cal msg : Nat) (ex : Option Nat) :
    (broadcast_to_calendar r fails cal msg ex).2 =
      (match ex with
        | none => subsOf r cal
        | some eu => (subsOf r cal).filter (fun x => x ≠ eu)).filterMap
        (bcAttempt r fails cal msg) := by
  rw [broadcast_to_calendar_eq]
  cases hs : dictLookup r.calendar_subscribers cal with
  | none =>
    have hsub : subsOf r cal = [] := by unfold subsOf; rw [hs]; rfl
    cases ex <;> simp [hsub]
  | some subs0 =>
    have hsub : subsOf r cal = subs0 := by unfold subsOf; rw [hs]; rfl
    cases ex <;> simp [hsub]

theorem broadcast_to_calendar_registry (r : Registry) (fails : Nat → Bool)
    (cal msg : Nat) (ex : Option Nat) :
    (broadcast_to_calendar r fails cal msg ex).1 =
      (((match ex with
          | none => subsOf r cal
          | some eu => (subsOf r cal).filter (fun x => x ≠ eu)).filter
          (bcFails r fails cal)).map (fun x => (x, cal))).foldl
        (fun (s : Registry) (p : Nat × Nat) => disconnect s p.1 p.2) r := by
  rw [broadcast_to_calendar_eq]
  cases hs : dictLookup r.calendar_subscribers cal with
  | none =>
    have hsub : subsOf r cal = [] := by unfold subsOf; rw [hs]; rfl
    cases ex <;> simp [hsub]
  | some subs0 =>
    have hsub : subsOf r cal = subs0 := by unfold subsOf; rw [hs]; rfl
    cases ex <;> simp [hsub]

theorem countP_eq_one_of_nodup {l : List Nat} {a : Nat} (hnd : l.Nodup)
    (ha : a ∈ l) : l.countP (fun x => decide (x = a)) = 1 := by
  induction l with
  | nil => simp at ha
  | cons b l ih =>
    simp only [List.nodup_cons] at hnd
    rw [List.countP_cons]
    rcases List.mem_cons.mp ha with hab | hal
    · have h0 : l.countP (fun x => decide (x = a)) = 0 := by
        rw [List.countP_eq_zero]
        intro x hx hpx
        have hxa : x = a := of_decide_eq_true hpx
        exact hnd.1 ((hxa.trans hab) ▸ hx)
      simp [h0, ← hab]
    · have hba : ¬(b = a) := fun h1 => hnd.1 (h1 ▸ hal)
      simp [ih hnd.2 hal, hba]

/-- C6: Broadcast exclusion: on every reachable state, with all sends
succeeding, `broadcast_to_calendar` with `exclude_user = u` delivers the
message exactly once to every subscriber of the calendar other than `u`
and never to `u` (even when `u` is itself subscribed), and without an
excluded user it delivers exactly once to every subscriber. -/
theorem broadcast_exclusion {r : Registry} (h : Reachable r)
    (cal msg u : Nat) :
    (∀ v, deliveredTo (broadcast_to_calendar r (fun _ => false) cal msg (some u)).2 v =
      if v ∈ subsOf r cal ∧ v ≠ u then 1 else 0) ∧
    (∀ v, deliveredTo (broadcast_to_calendar r (fun _ => false) cal msg none).2 v =
      if v ∈ subsOf r cal then 1 else 0) := by
  have hWF := reachable_wf h
  have hnd : (subsOf r cal).Nodup := subsOf_nodup hWF cal
  have hdel : ∀ v, v ∈ subsOf r cal →
      bcDelivers r (fun _ => false) cal v = true := by
    intro v hv
    have h2 := (wf_mem_iff hWF v cal).mp hv
    unfold bcDelivers
    cases hL : lookup2 r v cal with
    | none => rw [hL] at h2; simp at h2
    | some ws => simp
  constructor
  · intro v
    rw [broadcast_to_calendar_events]
    show deliveredTo (((subsOf r cal).filter (fun x => x ≠ u)).filterMap
      (bcAttempt r (fun _ => false) cal msg)) v = _
    rw [deliveredTo_bc _ _ _ _ _ (List.Nodup.filter _ hnd)]
    by_cases hv : v ∈ subsOf r cal ∧ v ≠ u
    · rw [if_pos ⟨List.mem_filter.mpr ⟨hv.1, by simp [hv.2]⟩, hdel v hv.1⟩,
          if_pos hv]
    · rw [if_neg, if_neg hv]
      intro hcon
      have h3 := List.mem_filter.mp hcon.1
      exact hv ⟨h3.1, by simpa using h3.2⟩
  · intro v
    rw [broadcast_to_calendar_events]
    show deliveredTo ((subsOf r cal).filterMap
      (bcAttempt r (fun _ => false) cal msg)) v = _
    rw [deliveredTo_bc _ _ _ _ _ hnd]
    by_cases hv : v ∈ subsOf r cal
    · rw [if_pos ⟨hv, hdel v hv⟩, if_pos hv]
    · rw [if_neg (fun hcon => hv hcon.1), if_neg hv]

theorem broadcast_exclusion_witness :
    deliveredTo (broadcast_to_calendar (connect (connect Registry.empty 10 1 9) 11 2 9)
      (fun _ => false) 9 5 (some 1)).2 2 = 1 := by
  have h2 := (broadcast_exclusion
    (Reachable.conn (connect Registry.empty 10 1 9) 11 2 9
      (Reachable.conn Registry.empty 10 1 9 Reachable.empty)) 9 5 1).1 2
  rw [h2]
  decide

/-- C8: Per-connection user fan-out: on every reachable state in which
user `u` holds connections to exactly the two calendars `cal1` and `cal2`,
`broadcast_to_user` (with sends succeeding) produces exactly two events —
one per connection, exactly one delivery tagged with each calendar — and
every event is on `u`'s channels (its user field is `u`), so nothing is
delivered on any other user's channels. -/
theorem broadcast_to_user_fanout {r : Registry} (h : Reachable r)
    (u cal1 cal2 msg : Nat) (inner : List (Nat × Nat))
    (hL : dictLookup r.active_connections u = some inner)
    (hkeys : ∀ c, c ∈ inner.map Prod.fst ↔ (c = cal1 ∨ c = cal2))
    (hne : cal1 ≠ cal2) :
    (broadcast_to_user r (fun _ => false) u msg).2.length = 2 ∧
    ((broadcast_to_user r (fun _ => false) u msg).2.countP
      (fun e => decide (e.calendar = cal1) && e.ok)) = 1 ∧
    ((broadcast_to_user r (fun _ => false) u msg).2.countP
      (fun e => decide (e.calendar = cal2) && e.ok)) = 1 ∧
    (∀ e ∈ (broadcast_to_user r (fun _ => false) u msg).2,
      e.user = u ∧ e.ok = true ∧ e.message = msg) := by
  have hWF := reachable_wf h
  have hndk : (inner.map Prod.fst).Nodup :=
    hWF.inner_keys (u, inner) (mem_of_dictLookup hL)
  have hlen : (inner.map Prod.fst).length = 2 :=
    length_eq_two_of_mem_iff hndk hne hkeys
  have hevents : (broadcast_to_user r (fun _ => false) u msg).2 =
      inner.map (fun p => ⟨p.2, u, p.1, msg, true⟩) := by
    rw [broadcast_to_user_eq]
    simp only [hL, Bool.not_false]
  have hcount : ∀ c, c ∈ inner.map Prod.fst →
      (inner.map (fun p => (⟨p.2, u, p.1, msg, true⟩ : SendEvent))).countP
        (fun e => decide (e.calendar = c) && e.ok) = 1 := by
    intro c hc
    have h2 : (inner.map (fun p => (⟨p.2, u, p.1, msg, true⟩ : SendEvent))).countP
        (fun e => decide (e.calendar = c) && e.ok) =
        (inner.map Prod.fst).countP (fun x => decide (x = c)) := by
      rw [List.countP_map, List.countP_map]
      congr 1
      funext p
      simp
    rw [h2]
    exact countP_eq_one_of_nodup hndk hc
  refine ⟨?_, ?_, ?_, ?_⟩
  · rw [hevents]
    simpa using hlen
  · rw [hevents]
    exact hcount cal1 ((hkeys cal1).mpr (Or.inl rfl))
  · rw [hevents]
    exact hcount cal2 ((hkeys cal2).mpr (Or.inr rfl))
  · rw [hevents]
    intro e he
    rcases List.mem_map.mp he with ⟨p, hp, h3⟩
    rw [← h3]
    exact ⟨rfl, rfl, rfl⟩

theorem broadcast_to_user_fanout_witness :
    (broadcast_to_user (connect (connect Registry.empty 10 1 5) 11 1 6)
      (fun _ => false) 1 7).2.length = 2 := by
  have h2 := broadcast_to_user_fanout
    (Reachable.conn (connect Registry.empty 10 1 5) 11 1 6
      (Reachable.conn Registry.empty 10 1 5 Reachable.empty))
    1 5 6 7 [(5, 10), (6, 11)] (by rfl) (by intro c; simp) (by decide)
  exact h2.1

/-- C2: Partial failure isolation with deferred cleanup: on every reachable
state whose subscriber set for `cal` is exactly {A, B, C}, if only B's
channel fails then A and C each receive the message exactly once, B
receives nothing, the resulting registry equals exactly one `disconnect`
of (B, cal) applied after the fan-out pass (the broadcast collects the
failure during iteration over the snapshot and mutates the registry only
afterward), and the subscriber count of `cal` after the call is 2. -/
theorem partial_failure_isolation {r : Registry} (h : Reachable r)
    (cal msg A B C : Nat) (s : List Nat) (fails : Nat → Bool)
    (wsA wsB wsC : Nat)
    (hs : dictLookup r.calendar_subscribers cal = some s)
    (hmem : ∀ x, x ∈ s ↔ (x = A ∨ x = B ∨ x = C))
    (hAB : A ≠ B) (hAC : A ≠ C) (hBC : B ≠ C)
    (hA : lookup2 r A cal = some wsA) (hfA : fails wsA = false)
    (hB : lookup2 r B cal = some wsB) (hfB : fails wsB = true)
    (hC : lookup2 r C cal = some wsC) (hfC : fails wsC = false) :
    deliveredTo (broadcast_to_calendar r fails cal msg none).2 A = 1 ∧
    deliveredTo (broadcast_to_calendar r fails cal msg none).2 C = 1 ∧
    deliveredTo (broadcast_to_calendar r fails cal msg none).2 B = 0 ∧
    (broadcast_to_calendar r fails cal msg none).1 = disconnect r B cal ∧
    get_calendar_subscriber_count
      (broadcast_to_calendar r fails cal msg none).1 cal = 2 := by
  have hWF := reachable_wf h
  have hsub : subsOf r cal = s := by
    unfold subsOf
    rw [hs]
    rfl
  have hnd : s.Nodup := hWF.subs_nodup (cal, s) (mem_of_dictLookup hs)
  have hev : (broadcast_to_calendar r fails cal msg none).2 =
      s.filterMap (bcAttempt r fails cal msg) := by
    rw [broadcast_to_calendar_events]
    show (subsOf r cal).filterMap (bcAttempt r fails cal msg) = _
    rw [hsub]
  have hreg : (broadcast_to_calendar r fails cal msg none).1 =
      disconnect r B cal := by
    rw [broadcast_to_calendar_registry]
    show (((subsOf r cal).filter (bcFails r fails cal)).map
        (fun x => (x, cal))).foldl
      (fun (s : Registry) (p : Nat × Nat) => disconnect s p.1 p.2) r = _
    rw [hsub]
    have hfilter : s.filter (bcFails r fails cal) = [B] := by
      apply filter_eq_singleton hnd ((hmem B).mpr (Or.inr (Or.inl rfl)))
      · unfold bcFails
        rw [hB]
        exact hfB
      · intro x hx hpx
        rcases (hmem x).mp hx with h1 | h1 | h1
        · subst h1
          simp [bcFails, hA, hfA] at hpx
        · exact h1
        · subst h1
          simp [bcFails, hC, hfC] at hpx
    rw [hfilter]
    rfl
  refine ⟨?_, ?_, ?_, hreg, ?_⟩
  · rw [hev, deliveredTo_bc _ _ _ _ _ hnd]
    rw [if_pos ⟨(hmem A).mpr (Or.inl rfl), by simp [bcDelivers, hA, hfA]⟩]
  · rw [hev, deliveredTo_bc _ _ _ _ _ hnd]
    rw [if_pos ⟨(hmem C).mpr (Or.inr (Or.inr rfl)),
      by simp [bcDelivers, hC, hfC]⟩]
  · rw [hev, deliveredTo_bc _ _ _ _ _ hnd]
    rw [if_neg]
    intro hcon
    have h2 := hcon.2
    simp [bcDelivers, hB, hfB] at h2
  · rw [hreg, get_calendar_subscriber_count_eq,
        subsOf_disconnect r B cal cal hWF.cs_keys, if_pos rfl, hsub]
    apply length_eq_two_of_mem_iff (List.Nodup.filter _ hnd) hAC
    intro x
    rw [List.mem_filter]
    constructor
    · intro hx
      have hxB : x ≠ B := by simpa using hx.2
      rcases (hmem x).mp hx.1 with h1 | h1 | h1
      · exact Or.inl h1
      · exact absurd h1 hxB
      · exact Or.inr h1
    · intro hx
      rcases hx with h1 | h1
      · subst h1
        exact ⟨(hmem x).mpr (Or.inl rfl), by simpa using hAB⟩
      · subst h1
        exact ⟨(hmem x).mpr (Or.inr (Or.inr rfl)), by simpa using hBC.symm⟩

theorem partial_failure_isolation_witness :
    get_calendar_subscriber_count
      (broadcast_to_calendar
        (connect (connect (connect Registry.empty 10 1 9) 11 2 9) 12 3 9)
        (fun ws => decide (ws = 11)) 9 5 none).1 9 = 2 := by
  have h2 := partial_failure_isolation
    (Reachable.conn (connect (connect Registry.empty 10 1 9) 11 2 9) 12 3 9
      (Reachable.conn (connect Registry.empty 10 1 9) 11 2 9
        (Reachable.conn Registry.empty 10 1 9 Reachable.empty)))
    9 5 1 2 3 [1, 2, 3] (fun ws => decide (ws = 11)) 10 11 12
    (by rfl) (by intro x; simp) (by decide) (by decide) (by decide)
    (by rfl) (by decide) (by rfl) (by decide) (by rfl) (by decide)
  exact h2.2.2.2.2
